import Mathlib

/-!
# Verification of the AnimeSort `Episode` parsing core (src/episode.rs)

Shallow embedding of `Episode` construction: filename cleaning, series-name,
season, episode and extension extraction, and movie classification.

Strings are modelled as `List Char` (Rust `String` is UTF-8; all reasoning here
is character-based, matching `str::chars`).  Machine integers (`u32`) are
modelled as `Nat` with the `parse::<u32>` range check `< 2 ^ 32` made explicit.
Fallible Rust code is modelled with `Option`/`Except`; a Rust `panic!`
(an `unwrap` of `None`/`Err`) is modelled as `Option.none` at the boundary of
`Episode::new`, which in the source returns `Self` and panics on failure.

Modelling notes, faithful to the source with these documented abstractions:
* `char::is_whitespace` / `str::trim` / `split_whitespace` use the ASCII
  whitespace characters (space, tab, newline, carriage return, vertical tab,
  form feed); exotic Unicode whitespace is not modelled.
* `char::is_numeric` and the regex class `\d` are modelled as ASCII digits.
* `ffprobe` duration strings parsed with `parse::<f32>` are modelled as an
  already-parsed exact rational (`Option ℚ`); an unparsable duration is the
  inner `none` (the code maps it to `0.0` via `unwrap_or`).
-/

set_option maxRecDepth 40000
set_option maxHeartbeats 2000000

namespace AnimeSort

/-- ASCII part of Rust `char::is_whitespace` (Unicode White_Space). -/
def isWsChar (c : Char) : Bool :=
  c == ' ' || c == '\t' || c == '\n' || c == '\r' ||
  c == Char.ofNat 11 || c == Char.ofNat 12

/-- The separator characters replaced by a space in step 1 of
`clean_filename`: `cleaned.replace(&['.', '_', '-', '+'][..], " ")`. -/
def sepChar (c : Char) : Bool :=
  c == '.' || c == '_' || c == '-' || c == '+'

/-- Step 1 of `clean_filename`: each of `.`, `_`, `-`, `+` becomes a space. -/
def sepReplace (s : List Char) : List Char :=
  s.map (fun c => if sepChar c then ' ' else c)

/-- Scan for the closing delimiter of a non-greedy `\[.*?\]`-style match:
returns the remainder after the first `cl`, provided no newline comes first
(`.` in the Rust regex does not match a newline). -/
def findClose (cl : Char) : List Char → Option (List Char)
  | [] => none
  | c :: cs => if c == cl then some cs else if c == '\n' then none else findClose cl cs

/-- Fuel-indexed worker for `Regex::replace_all` with pattern `\[.*?\]` (resp.
`\(.*?\)`): repeatedly removes the leftmost-shortest delimited group.  An
opening delimiter with no closing one (before a newline) is kept and scanning
resumes after it.  The fuel is the length of the input, which always
suffices. -/
def removeDelimGo (op cl : Char) : Nat → List Char → List Char
  | _, [] => []
  | 0, s => s
  | fuel + 1, c :: cs =>
    if c == op then
      match findClose cl cs with
      | some rest => removeDelimGo op cl fuel rest
      | none => c :: removeDelimGo op cl fuel cs
    else c :: removeDelimGo op cl fuel cs

/-- Step 2 of `clean_filename`: remove bracket- (resp. parenthesis-) delimited
content, non-greedy, single line. -/
def removeDelim (op cl : Char) (s : List Char) : List Char :=
  removeDelimGo op cl s.length s

/-- Fuel-indexed worker for Rust `str::replace(pattern, "")`: leftmost,
non-overlapping occurrences of `pat` are removed.  The fuel is the length of
the input, which always suffices (the denylist patterns are nonempty). -/
def replaceAllGo (pat : List Char) : Nat → List Char → List Char
  | _, [] => []
  | 0, s => s
  | fuel + 1, c :: cs =>
    if !pat.isEmpty && pat.isPrefixOf (c :: cs) then
      replaceAllGo pat fuel ((c :: cs).drop pat.length)
    else c :: replaceAllGo pat fuel cs

/-- Rust `str::replace(pat, "")` on character lists. -/
def replaceAll (pat s : List Char) : List Char :=
  replaceAllGo pat s.length s

/-- The `unwanted_pattern` denylist of `clean_filename`, in source order
(order matters: the replacements are applied sequentially). -/
def denyList : List (List Char) :=
  [ "www".data, "com".data, "org".data, "info".data, "mkv".data, "mp4".data,
    "avi".data, "wmv".data, "flv".data, "mov".data, "webm".data, "720p".data,
    "1080p".data, "x264".data, "x265".data, "HEVC".data, "MULTI".data,
    "AAC".data, "HD".data, "FRENCH".data, "VOSTFR".data, "VOSTA".data,
    "VF".data, "VO".data, "DL".data, "WEBRip".data, "WEB-DL".data, "WEB".data,
    "WEBRIP".data, "Rip".data, "RIP".data, "BluRay".data, "Blu-Ray".data,
    "Blu-ray".data, "WEB".data, "Film".data, "Movie".data,
    "TsundereRaws".data, "Tsundere".data, "Raws".data, "ws".data, "tv".data,
    "TV".data, "vostfree".data, "boats".data, "uno".data, "Wawacity".data,
    "wawacity".data, "H264".data, "NanDesuKa".data, "FANSUB".data ]

/-- Step 3 of `clean_filename`: the sequential denylist removal loop. -/
def applyDeny (s : List Char) : List Char :=
  denyList.foldl (fun acc pat => replaceAll pat acc) s

/-- Rust `str::trim`: drop whitespace from both ends.  (The
`split_whitespace().collect().join(" ")` expression on the line before the
trim in the source discards its result, so no internal whitespace collapsing
takes place; it is therefore absent from this model.) -/
def trimStr (s : List Char) : List Char :=
  List.dropWhile isWsChar ((List.dropWhile isWsChar s.reverse).reverse)

/-- `Episode::clean_filename`: separators to spaces, then `[...]` removal,
then `(...)` removal, then the denylist loop, then trim. -/
def cleanFilename (f : List Char) : List Char :=
  trimStr (applyDeny (removeDelim '(' ')' (removeDelim '[' ']' (sepReplace f))))

/-- Worker for `split_whitespace`: `cur` is the current token, reversed. -/
def splitWsGo (cur : List Char) : List Char → List (List Char)
  | [] => if cur.isEmpty then [] else [cur.reverse]
  | c :: cs =>
    if isWsChar c then
      if cur.isEmpty then splitWsGo [] cs else cur.reverse :: splitWsGo [] cs
    else splitWsGo (c :: cur) cs

/-- Rust `str::split_whitespace().collect::<Vec<_>>()`: the whitespace-separated
tokens, with empty tokens skipped. -/
def splitWs (s : List Char) : List (List Char) :=
  splitWsGo [] s

/-- The tier-1 token test used in `extract_series_name` and `extract_season`:
`starts_with('S') && len() > 1 && chars().skip(1).all(char::is_numeric)`. -/
def sTokGuard : List Char → Bool
  | c :: rest => c == 'S' && !rest.isEmpty && rest.all Char.isDigit
  | [] => false

/-- The tier-1 token test for `E`:
`starts_with('E') && len() > 1 && chars().skip(1).all(char::is_numeric)`. -/
def eTokGuard : List Char → Bool
  | c :: rest => c == 'E' && !rest.isEmpty && rest.all Char.isDigit
  | [] => false

/-- Decimal value of a digit string (the value `parse::<u32>` would return
when in range). -/
def digitsToNat (ds : List Char) : Nat :=
  ds.foldl (fun n c => 10 * n + (c.toNat - '0'.toNat)) 0

/-- Rust `str::parse::<u32>()`: optional leading `+`, then one or more ASCII
digits, value below `2 ^ 32`; anything else is an error (`none`).  Overflow
(`PosOverflow`) is the reachable failure case in this codebase, since the
tier-1 suffixes may be arbitrarily long digit runs. -/
def parseU32 (s : List Char) : Option Nat :=
  let ds := match s with
    | c :: r => if c == '+' then r else c :: r
    | [] => []
  if !ds.isEmpty && ds.all Char.isDigit then
    if digitsToNat ds < 2 ^ 32 then some (digitsToNat ds) else none
  else none

/-- Tier-1 scan of `extract_season`: the digit suffix
(`chars().skip(1).collect()`) of the first token passing `sTokGuard`. -/
def tier1S : List (List Char) → Option (List Char)
  | [] => none
  | t :: ts => if sTokGuard t then some t.tail else tier1S ts

/-- Tier-1 scan of `extract_episode`: the digit suffix of the first token
passing `eTokGuard`. -/
def tier1E : List (List Char) → Option (List Char)
  | [] => none
  | t :: ts => if eTokGuard t then some t.tail else tier1E ts

/-- Tier-1 scan of `extract_series_name`: the tokens strictly before the first
token passing the `S`- or `E`- guard (`name[..i]`), or `none` when no token
matches. -/
def tier1NameSplit : List (List Char) → Option (List (List Char))
  | [] => none
  | t :: ts =>
    if sTokGuard t || eTokGuard t then some []
    else (tier1NameSplit ts).map (fun l => t :: l)

/-- `Vec::join(" ")` on character-list tokens. -/
def joinSpace (ls : List (List Char)) : List Char :=
  List.intercalate [' '] ls

/-- Lazy scan for `(.+?)(MARKER)` from a fixed start: `acc` holds the reversed
group-1 characters consumed so far (at least one).  The marker is tested
before consuming each further character (lazy `+?`); a newline stops the
attempt (`.` does not match newline). -/
def nmGo (marker : List Char → Bool) (acc : List Char) : List Char → Option (List Char)
  | [] => none
  | c :: cs =>
    if marker (c :: cs) then some acc.reverse
    else if c == '\n' then none
    else nmGo marker (c :: acc) cs

/-- Attempt a `(.+?)(MARKER)` match starting exactly here: group 1 must take
at least one (non-newline) character. -/
def nmStart (marker : List Char → Bool) : List Char → Option (List Char)
  | [] => none
  | c :: cs => if c == '\n' then none else nmGo marker [c] cs

/-- Leftmost match of `(.+?)(MARKER)`: try each start position left to right
and return the group-1 capture of the first success. -/
def nameMatch (marker : List Char → Bool) : List Char → Option (List Char)
  | [] => none
  | c :: cs =>
    match nmStart marker (c :: cs) with
    | some g => some g
    | none => nameMatch marker cs

/-- Marker of name pattern 1, `S\d{1,2}E\d{1,2}|S\d{1,2}`: both alternatives
require exactly `S` followed by a digit here. -/
def marker1 : List Char → Bool
  | 'S' :: d :: _ => d.isDigit
  | _ => false

/-- `\d{1,2} \d{1,2}` with backtracking on the first greedy `\d{1,2}`:
two digits, space, digit. -/
def mk2a : List Char → Bool
  | a :: b :: c :: d :: _ => a.isDigit && b.isDigit && c == ' ' && d.isDigit
  | _ => false

/-- `\d{1,2} \d{1,2}` taking one digit: digit, space, digit. -/
def mk2b : List Char → Bool
  | a :: b :: c :: _ => a.isDigit && b == ' ' && c.isDigit
  | _ => false

/-- Marker of name pattern 2, `S\d{1,2} \d{1,2}`. -/
def marker2 : List Char → Bool
  | 'S' :: rest => mk2a rest || mk2b rest
  | _ => false

/-- Marker of name pattern 3, `E\d{1,2}`. -/
def marker3 : List Char → Bool
  | 'E' :: d :: _ => d.isDigit
  | _ => false

/-- Marker of name pattern 4, `\d{1,3}`: a digit here. -/
def marker4 : List Char → Bool
  | c :: _ => c.isDigit
  | _ => false

/-- Marker of name pattern 5, `Film|Movie`. -/
def marker5 (rest : List Char) : Bool :=
  "Film".data.isPrefixOf rest || "Movie".data.isPrefixOf rest

/-- Name pattern 6, `(.+)`: the greedy leftmost run of non-newline characters
(`none` only when the string consists solely of newlines or is empty). -/
def greedyLine (s : List Char) : Option (List Char) :=
  match s.dropWhile (fun c => c == '\n') with
  | [] => none
  | t => some (t.takeWhile (fun c => !(c == '\n')))

/-- `Episode::extract_series_name`: tier-1 token scan, then the six regex
patterns in source order, each returning its trimmed group 1; `Err` when
nothing matches (only possible when the cleaned name is empty or all
newlines). -/
def extractSeriesName (fc : List Char) : Except String (List Char) :=
  match tier1NameSplit (splitWs fc) with
  | some before => Except.ok (trimStr (joinSpace before))
  | none =>
    match nameMatch marker1 fc with
    | some g => Except.ok (trimStr g)
    | none =>
      match nameMatch marker2 fc with
      | some g => Except.ok (trimStr g)
      | none =>
        match nameMatch marker3 fc with
        | some g => Except.ok (trimStr g)
        | none =>
          match nameMatch marker4 fc with
          | some g => Except.ok (trimStr g)
          | none =>
            match nameMatch marker5 fc with
            | some g => Except.ok (trimStr g)
            | none =>
              match greedyLine fc with
              | some g => Except.ok (trimStr g)
              | none => Except.error "Name not found"

/-- Tier-2 of `extract_season`, regex `S(\d{1,2})(?:E\d{1,2})?`: group 1 of the
leftmost match, i.e. one or (greedily) two digits after the first `S` that is
followed by a digit.  The optional `E\d{1,2}` tail constrains nothing. -/
def regexSeasonCapture : List Char → Option (List Char)
  | [] => none
  | c :: cs =>
    if c == 'S' then
      match cs with
      | d1 :: rest =>
        if d1.isDigit then
          some (d1 :: (match rest with
            | d2 :: _ => if d2.isDigit then [d2] else []
            | [] => []))
        else regexSeasonCapture cs
      | [] => none
    else regexSeasonCapture cs

/-- `Episode::extract_season`: tier-1 token scan (parse failure defaults to 1),
then the tier-2 regex (parse failure defaults to 1), else 0. -/
def extractSeason (fc : List Char) : Nat :=
  match tier1S (splitWs fc) with
  | some ds => (parseU32 ds).getD 1
  | none =>
    match regexSeasonCapture fc with
    | some ds => (parseU32 ds).getD 1
    | none => 0

/-- Capture `\d{1,2}` starting at `d` (already known to be a digit), greedily
taking a second digit from `rest` when present. -/
def twoDigitCap (d : Char) (rest : List Char) : List Char :=
  d :: (match rest with
    | e :: _ => if e.isDigit then [e] else []
    | [] => [])

/-- `E(\d{1,2})` anchored here: the capture of episode alternatives 1 and 2. -/
def expectE : List Char → Option (List Char)
  | 'E' :: d :: rest => if d.isDigit then some (twoDigitCap d rest) else none
  | _ => none

/-- Episode alternative 1, `S\d{1,2}E(\d{1,2})` anchored here, with the greedy
first `\d{1,2}` backtracking from two digits to one. -/
def altE1 : List Char → Option (List Char)
  | 'S' :: a :: t =>
    if a.isDigit then
      match t with
      | b :: u =>
        if b.isDigit then
          match expectE u with
          | some g => some g
          | none => expectE (b :: u)
        else expectE (b :: u)
      | [] => none
    else none
  | _ => none

/-- Rust regex `\w` (word character) restricted to ASCII:
letters, digits, underscore. -/
def isWordChar (c : Char) : Bool :=
  c.isAlpha || c.isDigit || c == '_'

/-- Episode alternative 3, `\b(\d{1,3})\b` anchored here (`prev` is the
character before this position, `none` at the start of the string).  Since
digits are word characters, the trailing `\b` forces the whole maximal digit
run to be captured, and the run must be 1 to 3 digits long. -/
def altE3 (prev : Option Char) (s : List Char) : Option (List Char) :=
  let boundary := match prev with
    | none => true
    | some p => !isWordChar p
  match s with
  | c :: _ =>
    if boundary && c.isDigit then
      let run := s.takeWhile Char.isDigit
      if run.length ≤ 3 then
        match s.drop run.length with
        | [] => some run
        | d :: _ => if isWordChar d then none else some run
      else none
    else none
  | [] => none

/-- Tier-2 of `extract_episode`, regex
`(?:S\d{1,2}E(\d{1,2}))|(?:E(\d{1,2}))|(?:\b(\d{1,3})\b)` with the regex
crate's leftmost-first semantics: positions are scanned left to right and at
each position the three alternatives are tried in order.  The source reads
groups 1, 2, 3 in order and treats the digits identically, so only the
captured digits are returned. -/
def regexEpCapture (prev : Option Char) : List Char → Option (List Char)
  | [] => none
  | c :: cs =>
    match altE1 (c :: cs) with
    | some g => some g
    | none =>
      match expectE (c :: cs) with
      | some g => some g
      | none =>
        match altE3 prev (c :: cs) with
        | some g => some g
        | none => regexEpCapture (some c) cs

/-- `Episode::extract_episode`: tier-1 token scan (parse failure defaults
to 1), then the tier-2 regex (parse failure defaults to 1), else 0. -/
def extractEpisode (fc : List Char) : Nat :=
  match tier1E (splitWs fc) with
  | some ds => (parseU32 ds).getD 1
  | none =>
    match regexEpCapture none fc with
    | some ds => (parseU32 ds).getD 1
    | none => 0

/-- Split a file name at its last dot: `(stem-with-dots, after-last-dot)`. -/
def lastDotSplit (f : List Char) : Option (List Char × List Char) :=
  if f.any (fun c => c == '.') then
    let rev := f.reverse
    let afterRev := rev.takeWhile (fun c => !(c == '.'))
    let beforeRev := rev.drop (afterRev.length + 1)
    some (beforeRev.reverse, afterRev.reverse)
  else none

/-- Rust `Path::extension()` applied to a file name: `none` for `..`, `none`
when there is no dot, `none` when the only dot is the leading one (hidden
files like `.bashrc`), otherwise the portion after the final dot. -/
def rustExtension (f : List Char) : Option (List Char) :=
  if f = ['.', '.'] then none
  else
    match lastDotSplit f with
    | none => none
    | some (before, after) => if before.isEmpty then none else some after

/-- Rust `PathBuf`, abstracted to the only component the core reads: the final
file-name component (`Path::file_name()`), which is `none` for paths such as
`/` or paths terminating in `..`. -/
structure PathM where
  fileName : Option (List Char)
deriving DecidableEq

/-- The `ffprobe` metadata format record, reduced to the single field the core
reads: `format.duration : Option<String>`, with the string modelled by its
`parse::<f32>` result (`none` = unparsable, mapped to `0.0` by the code). -/
structure FfFormat where
  duration : Option (Option ℚ)
deriving DecidableEq

/-- Outcome of the external `ffprobe` call: metadata or a probe error. -/
abbrev ProbeOutcome := Except String FfFormat

/-- The `Episode` record of the source, with `full_path` abstracted to
`PathM`. -/
structure Episode where
  full_path : PathM
  filename : List Char
  filename_clean : List Char
  extension : List Char
  name : List Char
  season : Nat
  episode : Nat
  is_movie : Bool
deriving DecidableEq

/-- Rust `str::contains(pat)`: substring occurrence. -/
def hasSub (pat : List Char) : List Char → Bool
  | [] => pat.isEmpty
  | c :: cs => pat.isPrefixOf (c :: cs) || hasSub pat cs

/-- `Episode::is_movie` as a function of the raw filename, the extracted
season/episode, and the probe outcome.  The `==`/`&&` tests of the source are
written as propositional conditions.  A probe error is propagated
(`bail!`). -/
def isMovie (filename : List Char) (season episode : Nat)
    (probe : ProbeOutcome) : Except String Bool :=
  if hasSub "Film".data filename = true ∨ hasSub "Movie".data filename = true then
    Except.ok true
  else if season = 0 ∧ episode = 0 then
    Except.ok true
  else
    match probe with
    | Except.ok md =>
      match md.duration with
      | some pd => if (3000 : ℚ) < pd.getD 0 then Except.ok true else Except.ok false
      | none => Except.ok false
    | Except.error e => Except.error ("Error while parsing file with ffprobe: " ++ e)

/-- `Episode::new` followed by `fetch_infos`.  Every `unwrap` of the source
(`file_name()`, `extract_series_name()`, `extension()`, `is_movie()`) is a
potential panic; a panic is modelled as a `none` propagated by `Option.bind`,
so a constructed `Episode` is returned only when every step succeeds, in the
source order name → season → episode → extension → classification.  The probe
outcome is passed in as the environment of the single external call. -/
def Episode.new (p : PathM) (probe : ProbeOutcome) : Option Episode :=
  p.fileName.bind fun filename =>
    let fc := cleanFilename filename
    (extractSeriesName fc).toOption.bind fun nm =>
      let sn := extractSeason fc
      let epn := extractEpisode fc
      (rustExtension filename).bind fun ext =>
        (isMovie filename sn epn probe).toOption.bind fun mv =>
          some { full_path := p, filename := filename, filename_clean := fc,
                 extension := ext, name := nm, season := sn, episode := epn,
                 is_movie := mv }

end AnimeSort

namespace AnimeSort

/-! ## Helper lemmas -/

/-- The season/episode-absence branch of `is_movie` fires before the probe is
consulted: with both counters zero the classifier answers `true` for every
probe outcome, including probe errors. -/
theorem isMovie_zero_zero (fn : List Char) (pr : ProbeOutcome) :
    isMovie fn 0 0 pr = Except.ok true := by
  unfold isMovie
  split
  · rfl
  · rw [if_pos ⟨rfl, rfl⟩]

/-- `Except.toOption` inversion. -/
theorem exceptToOption_eq_some {ε α : Type} (x : Except ε α) (a : α) :
    x.toOption = some a ↔ x = Except.ok a := by
  cases x <;> simp [Except.toOption]

/-- Characterization of a successful construction: `Episode.new` returns
`some ep` exactly when every step succeeded, and then every field of `ep` is
the output of its extraction step on the cleaned (resp. raw) filename. -/
theorem new_some_fields (p : PathM) (pr : ProbeOutcome) (ep : Episode)
    (h : Episode.new p pr = some ep) :
    ∃ fn, p.fileName = some fn ∧
      ep.full_path = p ∧
      ep.filename = fn ∧
      ep.filename_clean = cleanFilename fn ∧
      extractSeriesName (cleanFilename fn) = Except.ok ep.name ∧
      ep.season = extractSeason (cleanFilename fn) ∧
      ep.episode = extractEpisode (cleanFilename fn) ∧
      rustExtension fn = some ep.extension ∧
      isMovie fn ep.season ep.episode pr = Except.ok ep.is_movie := by
  simp only [Episode.new, Option.bind_eq_some, exceptToOption_eq_some] at h
  obtain ⟨fn, hf, nm, hnm, ext, hext, mv, hmv, hep⟩ := h
  obtain rfl := Option.some.inj hep
  refine ⟨fn, hf, ?_, ?_, ?_, ?_, ?_, ?_, ?_, ?_⟩
  · with_reducible exact rfl
  · with_reducible exact rfl
  · with_reducible exact rfl
  · with_reducible exact hnm
  · with_reducible exact rfl
  · with_reducible exact rfl
  · with_reducible exact hext
  · with_reducible exact hmv


/-- Unfolding `extract_season` when the tier-1 scan matches. -/
theorem extractSeason_tier1 (fc d : List Char)
    (h : tier1S (splitWs fc) = some d) :
    extractSeason fc = (parseU32 d).getD 1 := by
  unfold extractSeason
  rw [h]

/-- Unfolding `extract_season` when tier 1 misses and the tier-2 regex
captures. -/
theorem extractSeason_tier2 (fc d : List Char)
    (h1 : tier1S (splitWs fc) = none) (h2 : regexSeasonCapture fc = some d) :
    extractSeason fc = (parseU32 d).getD 1 := by
  unfold extractSeason
  rw [h1, h2]

/-- `extract_season` falls through to 0 when neither tier matches. -/
theorem extractSeason_nomatch (fc : List Char)
    (h1 : tier1S (splitWs fc) = none) (h2 : regexSeasonCapture fc = none) :
    extractSeason fc = 0 := by
  unfold extractSeason
  rw [h1, h2]

/-- Unfolding `extract_episode` when the tier-1 scan matches. -/
theorem extractEpisode_tier1 (fc d : List Char)
    (h : tier1E (splitWs fc) = some d) :
    extractEpisode fc = (parseU32 d).getD 1 := by
  unfold extractEpisode
  rw [h]

/-- Unfolding `extract_episode` when tier 1 misses and the tier-2 regex
captures. -/
theorem extractEpisode_tier2 (fc d : List Char)
    (h1 : tier1E (splitWs fc) = none) (h2 : regexEpCapture none fc = some d) :
    extractEpisode fc = (parseU32 d).getD 1 := by
  unfold extractEpisode
  rw [h1, h2]

/-- `extract_episode` falls through to 0 when neither tier matches. -/
theorem extractEpisode_nomatch (fc : List Char)
    (h1 : tier1E (splitWs fc) = none) (h2 : regexEpCapture none fc = none) :
    extractEpisode fc = 0 := by
  unfold extractEpisode
  rw [h1, h2]

/-- The tier-1 season scan is the first token passing the guard, minus its
leading `S`. -/
theorem tier1S_eq_find (toks : List (List Char)) :
    tier1S toks = (toks.find? sTokGuard).map List.tail := by
  induction toks with
  | nil => rfl
  | cons t ts ih =>
    by_cases h : sTokGuard t = true
    · simp [tier1S, List.find?_cons, h]
    · simp only [Bool.not_eq_true] at h
      simp [tier1S, List.find?_cons, h, ih]

/-- The tier-1 episode scan is the first token passing the guard, minus its
leading `E`. -/
theorem tier1E_eq_find (toks : List (List Char)) :
    tier1E toks = (toks.find? eTokGuard).map List.tail := by
  induction toks with
  | nil => rfl
  | cons t ts ih =>
    by_cases h : eTokGuard t = true
    · simp [tier1E, List.find?_cons, h]
    · simp only [Bool.not_eq_true] at h
      simp [tier1E, List.find?_cons, h, ih]

/-- `parse::<u32>` succeeds on a nonempty all-digit string whose value is in
range, returning its decimal value. -/
theorem parseU32_digits (ds : List Char) (h1 : ds ≠ [])
    (h2 : ds.all Char.isDigit = true) (h3 : digitsToNat ds < 2 ^ 32) :
    parseU32 ds = some (digitsToNat ds) := by
  cases ds with
  | nil => exact absurd rfl h1
  | cons c r =>
    have hc : (c == '+') = false := by
      simp only [List.all_cons, Bool.and_eq_true] at h2
      by_cases h4 : c = '+'
      · subst h4
        exact absurd h2.1 (by decide)
      · simp [h4]
    unfold parseU32
    simp [hc, h2]
    exact h3

/-! ## Claims -/

/-- C10: for every input path with no final file-name component (Rust
`Path::file_name()` returns `None`, e.g. for `/` or a path ending in `..`),
`Episode::new` panics on the very first `unwrap`, before cleaning, extraction
or classification run: the construction yields no value, for every probe
outcome. -/
theorem c10_no_filename_aborts (pr : ProbeOutcome) :
    Episode.new ⟨none⟩ pr = none := rfl

/-- C3 (code bug evaluation): `clean_filename` does NOT collapse internal
whitespace runs: on input `a..b` the two separator dots become two spaces and
stay that way, because the collapsing expression
`cleaned.split_whitespace().collect::<Vec<&str>>().join(" ")` on line 76 of
episode.rs discards its result.  Leading/trailing trim does happen. -/
theorem c3_whitespace_bug_eval :
    cleanFilename "a..b".data = "a  b".data ∧ "a  b".data ≠ "a b".data := by
  exact ⟨by decide, by decide⟩

/-- C4: if the raw (uncleaned) filename contains `Film` or `Movie`, the
classifier returns `true` immediately, for any season/episode values and any
probe outcome (the probe is never consulted). -/
theorem c4_keyword_movie (fn : List Char) (season episode : Nat)
    (pr : ProbeOutcome)
    (h : hasSub "Film".data fn = true ∨ hasSub "Movie".data fn = true) :
    isMovie fn season episode pr = Except.ok true := by
  unfold isMovie
  rw [if_pos h]

/-- Witness for C4 at the concrete spec case B: `Big.Movie.Film.2020.mkv`
with season/episode tokens present and a failing probe. -/
theorem c4_keyword_movie_w :
    isMovie "Big.Movie.Film.2020.mkv".data 2 5 (Except.error "probe down")
      = Except.ok true :=
  c4_keyword_movie _ 2 5 _ (Or.inl (by decide))

/-- C6: when the classifier reaches the duration-probe step (no keyword, not
both counters zero) and the probe succeeds with a parsable duration `q`, the
result is movie iff `q` is strictly greater than 3000 seconds; in particular
exactly 3000 is not a movie. -/
theorem c6_duration_threshold (fn : List Char) (season episode : Nat) (q : ℚ)
    (hF : hasSub "Film".data fn = false) (hM : hasSub "Movie".data fn = false)
    (hSE : ¬(season = 0 ∧ episode = 0)) :
    (isMovie fn season episode (Except.ok ⟨some (some q)⟩) = Except.ok true
        ↔ 3000 < q) ∧
    (q = 3000 →
      isMovie fn season episode (Except.ok ⟨some (some q)⟩) = Except.ok false) := by
  have hkw : ¬(hasSub "Film".data fn = true ∨ hasSub "Movie".data fn = true) := by
    rintro (h | h) <;> simp_all
  constructor
  · unfold isMovie
    rw [if_neg hkw, if_neg hSE]
    by_cases hq : (3000 : ℚ) < q
    · simp [Option.getD, hq]
    · simp [Option.getD, hq]
  · intro hq
    subst hq
    unfold isMovie
    rw [if_neg hkw, if_neg hSE]
    simp [Option.getD]

/-- Witness for C6 at the boundary: duration exactly 3000 seconds, season 1,
episode 2, no keyword: classified as not a movie. -/
theorem c6_duration_threshold_w :
    isMovie "Ep1.mkv".data 1 2 (Except.ok ⟨some (some 3000)⟩)
      = Except.ok false :=
  (c6_duration_threshold "Ep1.mkv".data 1 2 3000 (by decide) (by decide)
    (by simp)).2 rfl

/-- C1: season 0 and episode 0 force the movie classification, and the
classifier decides this before the probe: the first conjunct quantifies over
every probe outcome (including errors), the second lifts the invariant to
every successfully constructed `Episode`. -/
theorem c1_no_markers_implies_movie :
    (∀ (fn : List Char) (pr : ProbeOutcome), isMovie fn 0 0 pr = Except.ok true) ∧
    (∀ (p : PathM) (pr : ProbeOutcome) (ep : Episode),
      Episode.new p pr = some ep → ep.season = 0 → ep.episode = 0 →
      ep.is_movie = true) := by
  refine ⟨isMovie_zero_zero, ?_⟩
  intro p pr ep hnew hs he
  obtain ⟨fn, -, -, -, -, -, -, -, -, hmv⟩ := new_some_fields p pr ep hnew
  rw [hs, he] at hmv
  exact (Except.ok.inj ((isMovie_zero_zero fn pr).symm.trans hmv)).symm

/-- The `Episode` produced from `RandomFile.mkv` (spec case C): no
season/episode tokens anywhere, so both counters are 0. -/
def randomFileEp : Episode :=
  { full_path := ⟨some "RandomFile.mkv".data⟩,
    filename := "RandomFile.mkv".data,
    filename_clean := "RandomFile".data,
    extension := "mkv".data,
    name := "RandomFile".data,
    season := 0, episode := 0, is_movie := true }

/-- Witness for C1 at the concrete spec case C: `RandomFile.mkv` has no
season/episode tokens anywhere; the probe outcome is an error, yet
construction succeeds and classifies as movie. -/
theorem c1_no_markers_implies_movie_w :
    Episode.new ⟨some "RandomFile.mkv".data⟩ (Except.error "probe down")
      = some randomFileEp ∧ randomFileEp.is_movie = true :=
  ⟨by decide, c1_no_markers_implies_movie.2 ⟨some "RandomFile.mkv".data⟩
    (Except.error "probe down") randomFileEp (by decide) rfl rfl⟩

end AnimeSort

namespace AnimeSort

/-- A list with `isEmpty = false` is not nil. -/
theorem ne_nil_of_not_isEmpty {α : Type} (l : List α) (h : (!l.isEmpty) = true) :
    l ≠ [] := by
  cases l <;> simp_all

/-- C7 counterexample: the claim says the value 0 is returned only when no
shape matches at all, but on the cleaned string `Show S0 E1` the tier-1 season
scan DOES match the token `S0` (returning its digit suffix `0`), and
`extract_season` still returns 0, because the matched digits parse to the
literal value 0. -/
theorem c7_counterexample_zero_token :
    tier1S (splitWs "Show S0 E1".data) = some ['0'] ∧
    extractSeason "Show S0 E1".data = 0 :=
  ⟨by decide, by decide⟩

/-- C7 (amended): when a season/episode shape is matched (tier-1 token scan or
tier-2 regex) but the captured digit run fails to parse as a `u32`, the
extractors return the default 1 (not 0); the fall-through default 0 is
returned when no shape matches at all.  (A matched token whose digits parse to
the literal value 0, e.g. `S0`, also produces 0 — see the counterexample.) -/
theorem c7_amended_parse_failure_defaults (c : List Char) :
    (∀ d, tier1S (splitWs c) = some d → parseU32 d = none →
      extractSeason c = 1) ∧
    (∀ d, tier1S (splitWs c) = none → regexSeasonCapture c = some d →
      parseU32 d = none → extractSeason c = 1) ∧
    (tier1S (splitWs c) = none → regexSeasonCapture c = none →
      extractSeason c = 0) ∧
    (∀ d, tier1E (splitWs c) = some d → parseU32 d = none →
      extractEpisode c = 1) ∧
    (∀ d, tier1E (splitWs c) = none → regexEpCapture none c = some d →
      parseU32 d = none → extractEpisode c = 1) ∧
    (tier1E (splitWs c) = none → regexEpCapture none c = none →
      extractEpisode c = 0) := by
  refine ⟨?_, ?_, ?_, ?_, ?_, ?_⟩
  · intro d h hp
    rw [extractSeason_tier1 c d h, hp]
    rfl
  · intro d h1 h2 hp
    rw [extractSeason_tier2 c d h1 h2, hp]
    rfl
  · exact extractSeason_nomatch c
  · intro d h hp
    rw [extractEpisode_tier1 c d h, hp]
    rfl
  · intro d h1 h2 hp
    rw [extractEpisode_tier2 c d h1 h2, hp]
    rfl
  · exact extractEpisode_nomatch c

/-- Witness for C7: the all-digit suffixes of `S4294967296` and `E4294967296`
pass the tier-1 guard but overflow `u32` (`4294967296 = 2 ^ 32`), so
`parse::<u32>` fails and both extractors default to 1, not 0. -/
theorem c7_amended_parse_failure_defaults_w :
    extractSeason "S4294967296".data = 1 ∧
    extractEpisode "E4294967296".data = 1 := by
  constructor
  · exact (c7_amended_parse_failure_defaults "S4294967296".data).1
      "4294967296".data (by decide) (by decide)
  · exact (c7_amended_parse_failure_defaults "E4294967296".data).2.2.2.1
      "4294967296".data (by decide) (by decide)

/-- C5 counterexample: the cleaned string `Show S4294967296 E2` contains a
token exactly of the form `S` followed by digits and a later token `E`
followed by digits, so the claim predicts `extract_season` returns that
integer, 4294967296; but the digit run overflows `u32` and the code returns
the parse-failure default 1 instead. -/
theorem c5_counterexample_overflow :
    extractSeason "Show S4294967296 E2".data = 1 ∧
    digitsToNat "4294967296".data = 4294967296 :=
  ⟨by decide, by decide⟩

/-- C5 (amended): for every cleaned string containing an `S<digits>` token
followed later by an `E<digits>` token, `extract_season` returns the integer
of the first `S<digits>` token and `extract_episode` the integer of the first
`E<digits>` token, provided each digit run parses as a `u32`
(value `< 2 ^ 32`); a run that overflows defaults to 1 instead. -/
theorem c5_amended_token_pair (c tS tE : List Char)
    (_hpair : ∃ (i j : Nat) (ti tj : List Char), i < j ∧
      (splitWs c)[i]? = some ti ∧
      (splitWs c)[j]? = some tj ∧ sTokGuard ti = true ∧ eTokGuard tj = true)
    (hS : (splitWs c).find? sTokGuard = some tS)
    (hE : (splitWs c).find? eTokGuard = some tE)
    (hvS : digitsToNat tS.tail < 2 ^ 32)
    (hvE : digitsToNat tE.tail < 2 ^ 32) :
    extractSeason c = digitsToNat tS.tail ∧
    extractEpisode c = digitsToNat tE.tail := by
  have hgS := List.find?_some hS
  have hgE := List.find?_some hE
  constructor
  · have h1 : tier1S (splitWs c) = some tS.tail := by
      rw [tier1S_eq_find, hS]
      rfl
    rw [extractSeason_tier1 c tS.tail h1]
    cases tS with
    | nil => simp [sTokGuard] at hgS
    | cons c0 rest =>
      simp only [sTokGuard, Bool.and_eq_true, beq_iff_eq, Bool.not_eq_true,
        List.isEmpty_eq_false] at hgS
      obtain ⟨⟨hc0, hne⟩, hdig⟩ := hgS
      rw [List.tail_cons] at hvS ⊢
      rw [parseU32_digits rest (ne_nil_of_not_isEmpty rest hne) hdig hvS]
      rfl
  · have h1 : tier1E (splitWs c) = some tE.tail := by
      rw [tier1E_eq_find, hE]
      rfl
    rw [extractEpisode_tier1 c tE.tail h1]
    cases tE with
    | nil => simp [eTokGuard] at hgE
    | cons c0 rest =>
      simp only [eTokGuard, Bool.and_eq_true, beq_iff_eq, Bool.not_eq_true,
        List.isEmpty_eq_false] at hgE
      obtain ⟨⟨hc0, hne⟩, hdig⟩ := hgE
      rw [List.tail_cons] at hvE ⊢
      rw [parseU32_digits rest (ne_nil_of_not_isEmpty rest hne) hdig hvE]
      rfl

/-- Witness for C5 at the cleaned string `Foo S3 E7`: season 3, episode 7. -/
theorem c5_amended_token_pair_w :
    extractSeason "Foo S3 E7".data = 3 ∧ extractEpisode "Foo S3 E7".data = 7 := by
  have h := c5_amended_token_pair "Foo S3 E7".data "S3".data "E7".data
    ⟨1, 2, "S3".data, "E7".data, by decide, by decide, by decide, by decide,
      by decide⟩
    (by decide) (by decide) (by decide) (by decide)
  exact ⟨h.1.trans (by decide), h.2.trans (by decide)⟩

end AnimeSort

namespace AnimeSort

/-- C9: when the first whitespace token of the cleaned filename is `S` or `E`
followed only by digits, the tier-1 name scan fires at index 0 and returns the
join of zero tokens: the empty string, as a success (`Ok`), not a
`NameNotFound` error.  The second conjunct exhibits a fully constructed
`Episode` (from `S2 E5.mkv`, probe duration 100 s) carrying the empty,
non-sentinel name. -/
theorem c9_marker_first_empty_name :
    (∀ (c t : List Char) (ts : List (List Char)),
      splitWs c = t :: ts → (sTokGuard t || eTokGuard t) = true →
      extractSeriesName c = Except.ok []) ∧
    ((Episode.new ⟨some "S2 E5.mkv".data⟩
        (Except.ok ⟨some (some 100)⟩)).map Episode.name = some []) := by
  constructor
  · intro c t ts h hm
    have h1 : tier1NameSplit (t :: ts) = some [] := by
      unfold tier1NameSplit
      rw [if_pos hm]
    unfold extractSeriesName
    rw [h, h1]
    rfl
  · decide

/-- Witness for C9 at the cleaned string `S2 E5`: its first token `S2` is a
marker token, so the extracted name is the empty string. -/
theorem c9_marker_first_empty_name_w :
    extractSeriesName "S2 E5".data = Except.ok [] :=
  c9_marker_first_empty_name.1 "S2 E5".data "S2".data ["E5".data]
    (by decide) (by decide)

/-- C2 counterexample: on the path with file name `file` (no extension) the
extension step fails, and `Episode::new` yields no value at all — the
`unwrap` panic, modelled as `none` — instead of returning a typed error value
to its caller (its Rust signature `fn new(&PathBuf) -> Self` has no error
channel). -/
theorem c2_counterexample_construction_aborts :
    Episode.new ⟨some "file".data⟩ (Except.ok ⟨some (some 100)⟩) = none ∧
    rustExtension "file".data = none :=
  ⟨by decide, by decide⟩

/-- C2 (amended): construction is all-or-nothing — `Episode::new` yields
nothing (a panic, not a typed error) exactly when a construction step fails
(no file name, name extraction error, missing extension, or probe error), and
on success every field of the returned `Episode` is set from its extraction
step, so no initialisation sentinel survives. -/
theorem c2_amended_all_or_nothing (p : PathM) (pr : ProbeOutcome) :
    (Episode.new p pr = none ↔
      (p.fileName = none ∨
        ∃ fn, p.fileName = some fn ∧
          ((∃ e, extractSeriesName (cleanFilename fn) = Except.error e) ∨
           rustExtension fn = none ∨
           (∃ e, isMovie fn (extractSeason (cleanFilename fn))
              (extractEpisode (cleanFilename fn)) pr = Except.error e)))) ∧
    (∀ ep, Episode.new p pr = some ep →
      ep.full_path = p ∧
      ∃ fn, p.fileName = some fn ∧
        ep.filename = fn ∧
        ep.filename_clean = cleanFilename fn ∧
        extractSeriesName (cleanFilename fn) = Except.ok ep.name ∧
        ep.season = extractSeason (cleanFilename fn) ∧
        ep.episode = extractEpisode (cleanFilename fn) ∧
        rustExtension fn = some ep.extension ∧
        isMovie fn ep.season ep.episode pr = Except.ok ep.is_movie) := by
  constructor
  · constructor
    · intro h
      cases hp : p.fileName with
      | none => exact Or.inl rfl
      | some fn =>
        refine Or.inr ⟨fn, rfl, ?_⟩
        simp only [Episode.new, hp, Option.some_bind] at h
        cases hn : extractSeriesName (cleanFilename fn) with
        | error e => exact Or.inl ⟨e, rfl⟩
        | ok nm =>
          rw [hn] at h
          simp only [Except.toOption, Option.some_bind] at h
          cases hx : rustExtension fn with
          | none => exact Or.inr (Or.inl rfl)
          | some ext =>
            rw [hx] at h
            simp only [Option.some_bind] at h
            cases hm : isMovie fn (extractSeason (cleanFilename fn))
                (extractEpisode (cleanFilename fn)) pr with
            | error e => exact Or.inr (Or.inr ⟨e, rfl⟩)
            | ok mv =>
              rw [hm] at h
              simp only [Except.toOption, Option.some_bind] at h
              exact absurd h (by simp)
    · intro h
      rcases h with hp | ⟨fn, hp, herr⟩
      · simp only [Episode.new, hp, Option.none_bind]
      · rcases herr with ⟨e, he⟩ | hx | ⟨e, he⟩
        · simp only [Episode.new, hp, Option.some_bind]
          rw [he]
          rfl
        · simp only [Episode.new, hp, Option.some_bind]
          cases hn : extractSeriesName (cleanFilename fn) with
          | error e2 => rfl
          | ok nm =>
            simp only [Except.toOption, Option.some_bind]
            rw [hx]
            rfl
        · simp only [Episode.new, hp, Option.some_bind]
          cases hn : extractSeriesName (cleanFilename fn) with
          | error e2 => rfl
          | ok nm =>
            simp only [Except.toOption, Option.some_bind]
            cases hx : rustExtension fn with
            | none => rfl
            | some ext =>
              simp only [Option.some_bind]
              rw [he]
              rfl
  · intro ep h
    obtain ⟨fn, hf, h1, h2, h3, h4, h5, h6, h7, h8⟩ := new_some_fields p pr ep h
    exact ⟨h1, fn, hf, h2, h3, h4, h5, h6, h7, h8⟩

/-- The `Episode` produced from `A.S02E05.mkv` with a 100-second probe. -/
def epA : Episode :=
  { full_path := ⟨some "A.S02E05.mkv".data⟩,
    filename := "A.S02E05.mkv".data,
    filename_clean := "A S02E05".data,
    extension := "mkv".data,
    name := "A".data,
    season := 2, episode := 5, is_movie := false }

/-- Witness for C2 on the successful construction from `A.S02E05.mkv`. -/
theorem c2_amended_all_or_nothing_w :
    Episode.new ⟨some "A.S02E05.mkv".data⟩ (Except.ok ⟨some (some 100)⟩)
      = some epA ∧ epA.full_path = ⟨some "A.S02E05.mkv".data⟩ := by
  refine ⟨by decide, ?_⟩
  exact ((c2_amended_all_or_nothing ⟨some "A.S02E05.mkv".data⟩
    (Except.ok ⟨some (some 100)⟩)).2 epA (by decide)).1

end AnimeSort

namespace AnimeSort

/-- `sepReplace` leaves no separator characters in its output. -/
theorem sepReplace_no_sep (s : List Char) :
    ∀ a ∈ sepReplace s, sepChar a = false := by
  intro a ha
  simp only [sepReplace, List.mem_map] at ha
  obtain ⟨b, hb, rfl⟩ := ha
  by_cases h : sepChar b = true
  · rw [if_pos h]
    decide
  · rw [if_neg h]
    simpa using h

/-- Characters of the remainder returned by `findClose` come from the input. -/
theorem mem_findClose (cl : Char) (cs rest : List Char)
    (h : findClose cl cs = some rest) : ∀ a ∈ rest, a ∈ cs := by
  induction cs generalizing rest with
  | nil => simp [findClose] at h
  | cons c cs ih =>
    intro a ha
    unfold findClose at h
    by_cases h1 : (c == cl) = true
    · rw [if_pos h1] at h
      obtain rfl := Option.some.inj h
      exact List.mem_cons_of_mem c ha
    · rw [if_neg h1] at h
      by_cases h2 : (c == '\n') = true
      · rw [if_pos h2] at h
        exact absurd h (by simp)
      · rw [if_neg h2] at h
        exact List.mem_cons_of_mem c (ih rest h a ha)

/-- Characters of `removeDelimGo` output come from the input (at any fuel). -/
theorem mem_removeDelimGo (op cl : Char) (fuel : Nat) (s : List Char) :
    ∀ a ∈ removeDelimGo op cl fuel s, a ∈ s := by
  induction fuel generalizing s with
  | zero =>
    intro a ha
    cases s with
    | nil => simp [removeDelimGo] at ha
    | cons c cs =>
      simp only [removeDelimGo] at ha
      exact ha
  | succ fuel ih =>
    intro a ha
    cases s with
    | nil => simp [removeDelimGo] at ha
    | cons c cs =>
      unfold removeDelimGo at ha
      by_cases h1 : (c == op) = true
      · rw [if_pos h1] at ha
        cases hfc : findClose cl cs with
        | none =>
          rw [hfc] at ha
          rcases List.mem_cons.mp ha with rfl | ha2
          · exact List.mem_cons_self a cs
          · exact List.mem_cons_of_mem c (ih cs a ha2)
        | some rest =>
          rw [hfc] at ha
          exact List.mem_cons_of_mem c (mem_findClose cl cs rest hfc a (ih rest a ha))
      · rw [if_neg h1] at ha
        rcases List.mem_cons.mp ha with rfl | ha2
        · exact List.mem_cons_self a cs
        · exact List.mem_cons_of_mem c (ih cs a ha2)

/-- Characters of `replaceAllGo` output come from the input (at any fuel). -/
theorem mem_replaceAllGo (pat : List Char) (fuel : Nat) (s : List Char) :
    ∀ a ∈ replaceAllGo pat fuel s, a ∈ s := by
  induction fuel generalizing s with
  | zero =>
    intro a ha
    cases s with
    | nil => simp [replaceAllGo] at ha
    | cons c cs =>
      simp only [replaceAllGo] at ha
      exact ha
  | succ fuel ih =>
    intro a ha
    cases s with
    | nil => simp [replaceAllGo] at ha
    | cons c cs =>
      unfold replaceAllGo at ha
      by_cases h1 : (!pat.isEmpty && pat.isPrefixOf (c :: cs)) = true
      · rw [if_pos h1] at ha
        exact List.drop_subset pat.length (c :: cs) (ih _ a ha)
      · rw [if_neg h1] at ha
        rcases List.mem_cons.mp ha with rfl | ha2
        · exact List.mem_cons_self a cs
        · exact List.mem_cons_of_mem c (ih cs a ha2)

/-- Characters of the denylist pass come from the input. -/
theorem mem_applyDeny (s : List Char) : ∀ a ∈ applyDeny s, a ∈ s := by
  have key : ∀ (L : List (List Char)) (s : List Char) (a : Char),
      a ∈ L.foldl (fun acc pat => replaceAll pat acc) s → a ∈ s := by
    intro L
    induction L with
    | nil => intro s a ha; simpa using ha
    | cons pat L ih =>
      intro s a ha
      rw [List.foldl_cons] at ha
      exact mem_replaceAllGo pat _ s a (ih _ a ha)
  exact fun a ha => key denyList s a ha

/-- Every list splits as a prefix plus its `dropWhile` suffix. -/
theorem dropWhile_suffix_decomp {α : Type} (p : α → Bool) (l : List α) :
    ∃ pre, l = pre ++ l.dropWhile p := by
  induction l with
  | nil => exact ⟨[], rfl⟩
  | cons c cs ih =>
    by_cases h : p c = true
    · obtain ⟨pre, hpre⟩ := ih
      refine ⟨c :: pre, ?_⟩
      rw [List.dropWhile_cons, if_pos h, List.cons_append, ← hpre]
    · refine ⟨[], ?_⟩
      rw [List.nil_append, List.dropWhile_cons, if_neg h]

/-- Membership through `dropWhile`. -/
theorem mem_dropWhile {α : Type} (p : α → Bool) (l : List α) :
    ∀ a ∈ l.dropWhile p, a ∈ l := by
  obtain ⟨pre, hpre⟩ := dropWhile_suffix_decomp p l
  intro a ha
  rw [hpre]
  exact List.mem_append_right pre ha

/-- Characters of `trimStr` output come from the input. -/
theorem mem_trimStr (s : List Char) : ∀ a ∈ trimStr s, a ∈ s := by
  intro a ha
  unfold trimStr at ha
  have h1 := mem_dropWhile isWsChar _ a ha
  rw [List.mem_reverse] at h1
  have h2 := mem_dropWhile isWsChar _ a h1
  rw [List.mem_reverse] at h2
  exact h2

/-- No separator character survives `clean_filename`. -/
theorem cleanFilename_no_sep (f : List Char) :
    ∀ a ∈ cleanFilename f, sepChar a = false := by
  intro a ha
  unfold cleanFilename at ha
  have h1 := mem_trimStr _ a ha
  have h2 := mem_applyDeny _ a h1
  have h3 := mem_removeDelimGo '(' ')' _ _ a h2
  have h4 := mem_removeDelimGo '[' ']' _ _ a h3
  exact sepReplace_no_sep f a h4

/-- `sepReplace` is the identity on separator-free strings. -/
theorem sepReplace_id (s : List Char) (h : ∀ a ∈ s, sepChar a = false) :
    sepReplace s = s := by
  induction s with
  | nil => rfl
  | cons c cs ih =>
    unfold sepReplace
    rw [List.map_cons]
    rw [if_neg (by simp [h c (List.mem_cons_self c cs)])]
    have := ih (fun a ha => h a (List.mem_cons_of_mem c ha))
    unfold sepReplace at this
    rw [this]

/-- `dropWhile` is idempotent. -/
theorem dropWhile_idem {α : Type} (p : α → Bool) (l : List α) :
    List.dropWhile p (List.dropWhile p l) = List.dropWhile p l := by
  induction l with
  | nil => rfl
  | cons c cs ih =>
    by_cases h : p c = true
    · rw [List.dropWhile_cons, if_pos h, ih]
    · rw [List.dropWhile_cons, if_neg h, List.dropWhile_cons, if_neg h]

/-- If `dropWhile` keeps a cons intact, its head fails the predicate. -/
theorem head_false_of_dropWhile_eq_self {α : Type} (p : α → Bool) (a : α)
    (l : List α) (h : List.dropWhile p (a :: l) = a :: l) : p a = false := by
  by_cases hp : p a = true
  · rw [List.dropWhile_cons, if_pos hp] at h
    have hlen := congrArg List.length h
    have hle : (List.dropWhile p l).length ≤ l.length := by
      obtain ⟨pre, hpre⟩ := dropWhile_suffix_decomp p l
      conv_rhs => rw [hpre]
      simp
    simp only [List.length_cons] at hlen
    omega
  · simpa using hp

/-- `dropWhile` fixes lists whose head fails the predicate. -/
theorem dropWhile_eq_self_of_head_false {α : Type} (p : α → Bool) (a : α)
    (l : List α) (h : p a = false) : List.dropWhile p (a :: l) = a :: l := by
  rw [List.dropWhile_cons, if_neg (by simp [h])]

/-- The reversed trailing-trim of an already head-trimmed reversal is fixed:
the core step of trim idempotence. -/
theorem dropWhile_rev_fixed (z : List Char)
    (hz : List.dropWhile isWsChar z.reverse = z.reverse) :
    List.dropWhile isWsChar (List.dropWhile isWsChar z).reverse
      = (List.dropWhile isWsChar z).reverse := by
  obtain ⟨pre, hsplit⟩ := dropWhile_suffix_decomp isWsChar z
  cases hyy : (List.dropWhile isWsChar z).reverse with
  | nil => rfl
  | cons b bs =>
    have hzr : z.reverse = b :: (bs ++ pre.reverse) := by
      conv_lhs => rw [hsplit]
      rw [List.reverse_append, hyy, List.cons_append]
    have hb : isWsChar b = false := by
      apply head_false_of_dropWhile_eq_self isWsChar b (bs ++ pre.reverse)
      rw [← hzr]
      exact hz
    rw [hyy] at *
    exact dropWhile_eq_self_of_head_false isWsChar b bs hb

/-- `trim` is idempotent. -/
theorem trimStr_idem (l : List Char) : trimStr (trimStr l) = trimStr l := by
  have hz : List.dropWhile isWsChar
      ((List.dropWhile isWsChar l.reverse).reverse).reverse
      = ((List.dropWhile isWsChar l.reverse).reverse).reverse := by
    rw [List.reverse_reverse]
    exact dropWhile_idem isWsChar l.reverse
  unfold trimStr
  rw [dropWhile_rev_fixed _ hz, List.reverse_reverse]
  exact dropWhile_idem isWsChar _

/-- The denylist pass is the identity when every single replacement is. -/
theorem applyDeny_id (s : List Char)
    (h : ∀ pat ∈ denyList, replaceAll pat s = s) : applyDeny s = s := by
  have key : ∀ (L : List (List Char)),
      (∀ pat ∈ L, replaceAll pat s = s) →
      L.foldl (fun acc pat => replaceAll pat acc) s = s := by
    intro L
    induction L with
    | nil => intro _; rfl
    | cons pat L ih =>
      intro hL
      rw [List.foldl_cons, hL pat (List.mem_cons_self pat L)]
      exact ih (fun q hq => hL q (List.mem_cons_of_mem pat hq))
  exact key denyList h

/-- C8: on any filename whose cleaned form has no bracket-delimited content,
no parenthesis-delimited content and no denylist token (each removal pass is a
no-op on it), `clean_filename` is idempotent: the separator pass is the
identity because cleaning never leaves a separator character, and the final
trim is idempotent. -/
theorem c8_clean_idempotent (x : List Char)
    (hb : removeDelim '[' ']' (cleanFilename x) = cleanFilename x)
    (hp : removeDelim '(' ')' (cleanFilename x) = cleanFilename x)
    (hd : ∀ pat ∈ denyList, replaceAll pat (cleanFilename x) = cleanFilename x) :
    cleanFilename (cleanFilename x) = cleanFilename x := by
  have hsep : sepReplace (cleanFilename x) = cleanFilename x :=
    sepReplace_id _ (cleanFilename_no_sep x)
  show trimStr (applyDeny (removeDelim '(' ')' (removeDelim '[' ']'
    (sepReplace (cleanFilename x))))) = cleanFilename x
  rw [hsep, hb, hp, applyDeny_id _ hd]
  exact trimStr_idem _

/-- Witness for C8 at `Show.S01.mkv`: its cleaned form `Show S01` contains no
bracket/paren content and no denylist token, and cleaning it again changes
nothing. -/
theorem c8_clean_idempotent_w :
    cleanFilename (cleanFilename "Show.S01.mkv".data)
      = cleanFilename "Show.S01.mkv".data :=
  c8_clean_idempotent "Show.S01.mkv".data (by decide) (by decide) (by decide)

end AnimeSort
